import Mathlib

/-
  Verification of the item-filtering logic of dolphin's KFileItemModelFilter
  (src/kitemviews/private/kfileitemmodelfilter.cpp).

  Strings are modelled as `List Char`.  Qt's QRegularExpression together with
  QRegularExpression::wildcardToRegularExpression is an external library; it is
  modelled here by a direct glob matcher (star = any run, question mark = one
  character, bracket = character class with optional negation and ranges,
  case-insensitive, anchored to the whole string, matching Qt's documented
  anchored wildcard conversion).  Validity of the translated pattern is
  modelled by `globParse` returning `none` exactly for an unterminated
  character class or an out-of-order range, the ways the translated regular
  expression can be rejected by the regex engine.
-/

namespace Dolphin

/-- Model of QString::toLower, applied characterwise. -/
def lowerStr (s : List Char) : List Char := s.map Char.toLower

/-- Model of QString::trimmed: strip leading and trailing whitespace. -/
def trimmed (s : List Char) : List Char :=
  ((s.dropWhile Char.isWhitespace).reverse.dropWhile Char.isWhitespace).reverse

/-- The wildcard-metacharacter test used in setPattern and
updateHiddenWhitelistRegExps: contains a star, question mark or bracket. -/
def hasWildcardMeta (s : List Char) : Bool :=
  s.contains '*' || s.contains '?' || s.contains '['

/-- One item of a glob character class: a single character or a range. -/
inductive ClsItem where
  | one (c : Char)
  | range (lo hi : Char)
deriving Repr, DecidableEq

/-- One token of a parsed glob pattern. -/
inductive GlobTok where
  | lit (c : Char)
  | anyOne
  | star
  | cls (neg : Bool) (items : List ClsItem)
deriving Repr, DecidableEq

/-- Scan the raw member characters of a character class up to the closing
bracket; `none` when the class is unterminated (which makes the translated
regular expression invalid). -/
def scanClass : List Char → Option (List Char × List Char)
  | [] => none
  | ']' :: rest => some ([], rest)
  | c :: rest => (scanClass rest).map (fun p => (c :: p.1, p.2))

/-- Interpret the raw member characters of a class: a dash between two
characters forms a range (rejected when out of order, as the regex engine
rejects it); every other character is a literal member. -/
def interpClassBody : List Char → Option (List ClsItem)
  | [] => some []
  | c :: '-' :: d :: rest =>
      if c ≤ d then (interpClassBody rest).map (ClsItem.range c d :: ·) else none
  | c :: rest => (interpClassBody rest).map (ClsItem.one c :: ·)

/-- Parse one character class (the characters after the opening bracket),
following Qt's wildcard conversion: an optional leading bang negates, a
bracket right after that is a literal member, then members up to the closing
bracket.  Returns the class and the remaining input, or `none` when the
translated class is invalid. -/
def parseClass (s : List Char) : Option ((Bool × List ClsItem) × List Char) :=
  if s.isEmpty then none
  else
    let p1 := if s.head? = some '!' then (true, s.tail) else (false, s)
    let p2 := if p1.2.head? = some ']' then ([']'], p1.2.tail) else (([] : List Char), p1.2)
    match scanClass p2.2 with
    | none => none
    | some (body, r3) =>
      match interpClassBody (p2.1 ++ body) with
      | none => none
      | some items => some ((p1.1, items), r3)

/-- Fuel-driven glob parser; the fuel only bounds the recursion and
`globParse` supplies `s.length`, which always suffices because every step
consumes at least one character. -/
def globParseGo : Nat → List Char → Option (List GlobTok)
  | _, [] => some []
  | 0, _ :: _ => none
  | fuel + 1, '*' :: rest => (globParseGo fuel rest).map (GlobTok.star :: ·)
  | fuel + 1, '?' :: rest => (globParseGo fuel rest).map (GlobTok.anyOne :: ·)
  | fuel + 1, '[' :: rest =>
      match parseClass rest with
      | none => none
      | some ((neg, items), r3) => (globParseGo fuel r3).map (GlobTok.cls neg items :: ·)
  | fuel + 1, c :: rest => (globParseGo fuel rest).map (GlobTok.lit c :: ·)

/-- Model of translating a wildcard pattern to a regular expression:
`some` tokens when the translation yields a valid regular expression. -/
def globParse (s : List Char) : Option (List GlobTok) := globParseGo s.length s

/-- Model of QRegularExpression::isValid on the translated wildcard pattern. -/
def globValid (pat : List Char) : Bool := (globParse pat).isSome

/-- Case-insensitive single-character comparison (CaseInsensitiveOption). -/
def charMatchCI (p c : Char) : Bool := p.toLower == c.toLower

/-- Membership of a character in one class item. -/
def clsItemContains : ClsItem → Char → Bool
  | ClsItem.one d, c => c == d
  | ClsItem.range lo hi, c => decide (lo ≤ c) && decide (c ≤ hi)

/-- Case-insensitive membership of a character in a class body. -/
def clsContainsCI (items : List ClsItem) (c : Char) : Bool :=
  items.any fun it =>
    clsItemContains it c || clsItemContains it c.toLower || clsItemContains it c.toUpper

/-- Case-insensitive match of a character against a (possibly negated) class. -/
def clsMatch (neg : Bool) (items : List ClsItem) (c : Char) : Bool :=
  if neg then !(clsContainsCI items c) else clsContainsCI items c

/-- Anchored matching of a parsed glob against a whole string: a star may
absorb any prefix, so it succeeds when the rest of the tokens match any
suffix of the remaining input. -/
def globMatchToks : List GlobTok → List Char → Bool
  | [], s => s.isEmpty
  | GlobTok.lit _ :: _, [] => false
  | GlobTok.lit c :: ts, d :: s => charMatchCI c d && globMatchToks ts s
  | GlobTok.anyOne :: _, [] => false
  | GlobTok.anyOne :: ts, _ :: s => globMatchToks ts s
  | GlobTok.cls _ _ :: _, [] => false
  | GlobTok.cls neg items :: ts, d :: s => clsMatch neg items d && globMatchToks ts s
  | GlobTok.star :: ts, s => s.tails.any fun suf => globMatchToks ts suf

/-- Model of compiling the wildcard pattern case-insensitively and testing
`match(name).hasMatch()`: the anchored conversion matches the whole name.
An invalid pattern (never consulted by the code, which guards on validity)
matches nothing. -/
def globMatch (pat name : List Char) : Bool :=
  match globParse pat with
  | some toks => globMatchToks toks name
  | none => false

/-- Model of QString::contains(sub): sub occurs contiguously in s. -/
def containsStr (s sub : List Char) : Bool :=
  s.tails.any fun t => sub.isPrefixOf t

/-- The attributes of a KFileItem that the filter reads: KFileItem::text()
(the display name), KFileItem::isHidden() and KFileItem::mimetype(). -/
structure KFileItem where
  text : List Char
  isHidden : Bool
  mimetype : List Char
deriving Repr, DecidableEq

/-- One compiled whitelist regular expression: either the case-insensitive
anchored wildcard conversion of a pattern, or the exact-match regex built
from an escaped literal anchored at start and end, also case-insensitive. -/
inductive WlRegExp where
  | wild (pat : List Char)
  | exact (lit : List Char)
deriving Repr, DecidableEq

/-- Model of QRegularExpression::match(name).hasMatch() for a compiled
whitelist entry: a wildcard entry matches per the anchored glob semantics;
an exact entry, `^escaped$` case-insensitive, matches exactly the literal up
to case. -/
def WlRegExp.hasMatch : WlRegExp → List Char → Bool
  | WlRegExp.wild pat, name => globMatch pat name
  | WlRegExp.exact lit, name => lowerStr name == lowerStr lit

/-- State of KFileItemModelFilter.  `m_regExp` is the owned regex object,
modelled by the wildcard pattern last set into it (`none` = nullptr). -/
structure KFileItemModelFilter where
  m_useRegExp : Bool
  m_regExp : Option (List Char)
  m_lowerCasePattern : List Char
  m_pattern : List Char
  m_mimeTypes : List (List Char)
  m_excludeMimeTypes : List (List Char)
  m_hiddenFilesShown : Bool
  m_hiddenWhitelistEnabled : Bool
  m_hiddenWhitelist : List (List Char)
  m_hiddenWhitelistRegExps : List WlRegExp
deriving Repr, DecidableEq

namespace KFileItemModelFilter

/-- The constructor KFileItemModelFilter(): no regex, empty pattern and
sets, hidden files shown, whitelist disabled and empty. -/
def init : KFileItemModelFilter :=
  { m_useRegExp := false
    m_regExp := none
    m_lowerCasePattern := []
    m_pattern := []
    m_mimeTypes := []
    m_excludeMimeTypes := []
    m_hiddenFilesShown := true
    m_hiddenWhitelistEnabled := false
    m_hiddenWhitelist := []
    m_hiddenWhitelistRegExps := [] }

/-- setPattern: store the pattern and its lowercase form; when it contains a
wildcard metacharacter, set the regex object's pattern to the wildcard
conversion and use it iff it is valid, otherwise use substring mode. -/
def setPattern (f : KFileItemModelFilter) (filter : List Char) : KFileItemModelFilter :=
  let f := { f with m_pattern := filter, m_lowerCasePattern := lowerStr filter }
  if hasWildcardMeta filter then
    { f with m_regExp := some filter, m_useRegExp := globValid filter }
  else
    { f with m_useRegExp := false }

/-- setMimeTypes: replace the include list verbatim. -/
def setMimeTypes (f : KFileItemModelFilter) (types : List (List Char)) : KFileItemModelFilter :=
  { f with m_mimeTypes := types }

/-- setExcludeMimeTypes: replace the exclude list verbatim. -/
def setExcludeMimeTypes (f : KFileItemModelFilter) (types : List (List Char)) :
    KFileItemModelFilter :=
  { f with m_excludeMimeTypes := types }

/-- setHiddenFilesShown: replace the visibility flag. -/
def setHiddenFilesShown (f : KFileItemModelFilter) (shown : Bool) : KFileItemModelFilter :=
  { f with m_hiddenFilesShown := shown }

/-- setHiddenFilesWhitelistEnabled: replace the whitelist-active flag. -/
def setHiddenFilesWhitelistEnabled (f : KFileItemModelFilter) (enabled : Bool) :
    KFileItemModelFilter :=
  { f with m_hiddenWhitelistEnabled := enabled }

/-- The loop body of updateHiddenWhitelistRegExps: trim; skip when empty;
wildcard patterns compile to a wildcard matcher, appended only when valid;
plain patterns compile to the exact-match regex, appended unconditionally. -/
def wlStep (acc : List WlRegExp) (pattern : List Char) : List WlRegExp :=
  let t := trimmed pattern
  if t.isEmpty then acc
  else if hasWildcardMeta t then
    if globValid t then acc ++ [WlRegExp.wild t] else acc
  else acc ++ [WlRegExp.exact t]

/-- updateHiddenWhitelistRegExps: clear the compiled list and rebuild it from
m_hiddenWhitelist in order. -/
def updateHiddenWhitelistRegExps (f : KFileItemModelFilter) : KFileItemModelFilter :=
  { f with m_hiddenWhitelistRegExps := f.m_hiddenWhitelist.foldl wlStep [] }

/-- setHiddenFilesWhitelist: replace the raw list and recompile. -/
def setHiddenFilesWhitelist (f : KFileItemModelFilter) (patterns : List (List Char)) :
    KFileItemModelFilter :=
  updateHiddenWhitelistRegExps { f with m_hiddenWhitelist := patterns }

/-- matchesHiddenWhitelist: whether any compiled whitelist regex matches the
item's display name. -/
def matchesHiddenWhitelist (f : KFileItemModelFilter) (item : KFileItem) : Bool :=
  f.m_hiddenWhitelistRegExps.any fun r => r.hasMatch item.text

/-- hasSetFilters: a filter is set when the pattern or either mime list is
non-empty, or hidden files are not shown. -/
def hasSetFilters (f : KFileItemModelFilter) : Bool :=
  !f.m_pattern.isEmpty || !f.m_mimeTypes.isEmpty || !f.m_excludeMimeTypes.isEmpty ||
    !f.m_hiddenFilesShown

/-- matchesPattern: in regex mode, test the compiled regex against the display
name (the code only enters this branch with a valid compiled regex in place);
otherwise test whether the lowercase display name contains the stored
lowercase pattern. -/
def matchesPattern (f : KFileItemModelFilter) (item : KFileItem) : Bool :=
  if f.m_useRegExp then
    match f.m_regExp with
    | some pat => globMatch pat item.text
    | none => false
  else
    containsStr (lowerStr item.text) f.m_lowerCasePattern

/-- matchesType: excluded mime types win; then a non-empty include list acts
as an allow-list; an empty include list lets any non-excluded type pass. -/
def matchesType (f : KFileItemModelFilter) (item : KFileItem) : Bool :=
  if f.m_excludeMimeTypes.any (fun t => item.mimetype == t) then false
  else if f.m_mimeTypes.any (fun t => item.mimetype == t) then true
  else f.m_mimeTypes.isEmpty

/-- The member function matches (its name is a Lean keyword, hence
matchesItem): the hidden-file gate followed by the pattern/mime combination,
exactly as in the source: a hidden item with hidden files not shown is
rejected unless the whitelist is enabled and matches; then, with no filter
set the item passes, with both filters set both must match, and with one
filter set that one decides. -/
def matchesItem (f : KFileItemModelFilter) (item : KFileItem) : Bool :=
  if !f.m_hiddenFilesShown && item.isHidden &&
      !(f.m_hiddenWhitelistEnabled && matchesHiddenWhitelist f item) then
    false
  else
    let hasPatternFilter := !f.m_pattern.isEmpty
    let hasMimeTypesFilter := !f.m_mimeTypes.isEmpty || !f.m_excludeMimeTypes.isEmpty
    if !hasPatternFilter && !hasMimeTypesFilter then true
    else if hasPatternFilter && hasMimeTypesFilter then
      matchesPattern f item && matchesType f item
    else if hasPatternFilter then matchesPattern f item
    else matchesType f item

end KFileItemModelFilter

/-- Short constructor for string literals in concrete statements. -/
def str (s : String) : List Char := s.data

/-- Declarative whole-string semantics of a parsed glob: the token list must
account for every character of the string, a star absorbing any run. -/
inductive GMatch : List GlobTok → List Char → Prop where
  | nil : GMatch [] []
  | lit {c d : Char} {ts : List GlobTok} {s : List Char} :
      charMatchCI c d = true → GMatch ts s → GMatch (GlobTok.lit c :: ts) (d :: s)
  | anyOne {d : Char} {ts : List GlobTok} {s : List Char} :
      GMatch ts s → GMatch (GlobTok.anyOne :: ts) (d :: s)
  | cls {neg : Bool} {items : List ClsItem} {d : Char} {ts : List GlobTok} {s : List Char} :
      clsMatch neg items d = true → GMatch ts s → GMatch (GlobTok.cls neg items :: ts) (d :: s)
  | starSkip {ts : List GlobTok} {s : List Char} :
      GMatch ts s → GMatch (GlobTok.star :: ts) s
  | starCons {d : Char} {ts : List GlobTok} {s : List Char} :
      GMatch (GlobTok.star :: ts) s → GMatch (GlobTok.star :: ts) (d :: s)

theorem GMatch.toBool {ts : List GlobTok} {s : List Char} (h : GMatch ts s) :
    globMatchToks ts s = true := by
  induction h with
  | nil => rfl
  | lit hc _ ih => simp [globMatchToks, hc, ih]
  | anyOne _ ih => simp [globMatchToks, ih]
  | cls hc _ ih => simp [globMatchToks, hc, ih]
  | @starSkip ts s _ ih =>
      simp only [globMatchToks, List.any_eq_true]
      exact ⟨s, (List.mem_tails s s).mpr (List.suffix_refl s), ih⟩
  | @starCons d ts s _ ih =>
      simp only [globMatchToks, List.any_eq_true] at ih ⊢
      obtain ⟨suf, hmem, hsuf⟩ := ih
      exact ⟨suf, (List.mem_tails suf (d :: s)).mpr
        (((List.mem_tails suf s).mp hmem).trans (List.suffix_cons d s)), hsuf⟩

theorem GMatch.star_of_suffix {ts : List GlobTok} {s suf : List Char}
    (hsfx : suf <:+ s) (h : GMatch ts suf) : GMatch (GlobTok.star :: ts) s := by
  obtain ⟨pre, rfl⟩ := hsfx
  induction pre with
  | nil => exact GMatch.starSkip h
  | cons d pre ih => exact GMatch.starCons ih

theorem globMatchToks_sound : ∀ (ts : List GlobTok) (s : List Char),
    globMatchToks ts s = true → GMatch ts s := by
  intro ts
  induction ts with
  | nil =>
    intro s h
    cases s with
    | nil => exact GMatch.nil
    | cons d s => simp [globMatchToks] at h
  | cons t ts ih =>
    intro s h
    cases t with
    | lit c =>
      cases s with
      | nil => simp [globMatchToks] at h
      | cons d s =>
        simp only [globMatchToks, Bool.and_eq_true] at h
        exact GMatch.lit h.1 (ih s h.2)
    | anyOne =>
      cases s with
      | nil => simp [globMatchToks] at h
      | cons d s => exact GMatch.anyOne (ih s (by simpa [globMatchToks] using h))
    | cls neg items =>
      cases s with
      | nil => simp [globMatchToks] at h
      | cons d s =>
        simp only [globMatchToks, Bool.and_eq_true] at h
        exact GMatch.cls h.1 (ih s h.2)
    | star =>
      simp only [globMatchToks, List.any_eq_true] at h
      obtain ⟨suf, hmem, hsuf⟩ := h
      exact GMatch.star_of_suffix ((List.mem_tails suf s).mp hmem) (ih suf hsuf)

/-- The executable anchored matcher coincides with the declarative
whole-string semantics. -/
theorem globMatchToks_iff {ts : List GlobTok} {s : List Char} :
    globMatchToks ts s = true ↔ GMatch ts s :=
  ⟨globMatchToks_sound ts s, GMatch.toBool⟩

namespace KFileItemModelFilter

/-- The pattern/mime combination step of matches (everything after the
hidden-file gate), named so that theorems can state where evaluation
continues once the gate is passed. -/
def patternMimeStep (f : KFileItemModelFilter) (item : KFileItem) : Bool :=
  let hasPatternFilter := !f.m_pattern.isEmpty
  let hasMimeTypesFilter := !f.m_mimeTypes.isEmpty || !f.m_excludeMimeTypes.isEmpty
  if !hasPatternFilter && !hasMimeTypesFilter then true
  else if hasPatternFilter && hasMimeTypesFilter then
    matchesPattern f item && matchesType f item
  else if hasPatternFilter then matchesPattern f item
  else matchesType f item

/-- Per-entry description of whitelist compilation, following the spec's
wording: trim, skip when empty, wildcard entries compile only when valid,
plain entries always compile to the exact matcher. -/
def compileWhitelistEntry (pattern : List Char) : Option WlRegExp :=
  let t := trimmed pattern
  if t.isEmpty then none
  else if hasWildcardMeta t then
    if globValid t then some (WlRegExp.wild t) else none
  else some (WlRegExp.exact t)

theorem wlStep_eq (acc : List WlRegExp) (p : List Char) :
    wlStep acc p = acc ++ (compileWhitelistEntry p).toList := by
  unfold wlStep compileWhitelistEntry
  by_cases h1 : (trimmed p).isEmpty <;> by_cases h2 : hasWildcardMeta (trimmed p) <;>
    by_cases h3 : globValid (trimmed p) <;> simp [h1, h2, h3]

theorem wlFold_eq (l : List (List Char)) (acc : List WlRegExp) :
    l.foldl wlStep acc = acc ++ l.filterMap compileWhitelistEntry := by
  induction l generalizing acc with
  | nil => simp
  | cons p l ih =>
    rw [List.foldl_cons, wlStep_eq, ih]
    cases h : compileWhitelistEntry p <;> simp [h, List.filterMap_cons]

end KFileItemModelFilter

theorem anyBeqMem (a : List Char) (l : List (List Char)) :
    (l.any fun t => a == t) = decide (a ∈ l) := by
  induction l with
  | nil => rfl
  | cons b l ih =>
    simp only [List.any_cons, ih]
    rw [Bool.eq_iff_iff]
    simp [beq_iff_eq, List.mem_cons]

open KFileItemModelFilter in
/-- C3: matchesType returns false when the item's mime type is in the exclude
set (exclusion wins even over inclusion), else true when it is in the include
set, else true iff the include set is empty; comparison is exact string
equality.  The concrete conjunct shows exclusion beating inclusion of the
same type. -/
theorem matchesType_spec (f : KFileItemModelFilter) (item : KFileItem) :
    matchesType f item =
      (if item.mimetype ∈ f.m_excludeMimeTypes then false
       else if item.mimetype ∈ f.m_mimeTypes then true
       else f.m_mimeTypes.isEmpty)
    ∧ matchesType
        (setExcludeMimeTypes (setMimeTypes init [str "text/plain"]) [str "text/plain"])
        { text := [], isHidden := false, mimetype := str "text/plain" } = false := by
  constructor
  · simp only [matchesType, anyBeqMem]
    by_cases h1 : item.mimetype ∈ f.m_excludeMimeTypes <;>
      by_cases h2 : item.mimetype ∈ f.m_mimeTypes <;> simp [h1, h2]
  · decide

open KFileItemModelFilter in
/-- C5: after setPattern(raw) the stored pattern is raw with its lowercase
form; wildcard mode is active exactly when raw contains a wildcard
metacharacter and its translation is a valid regular expression, the regex
object then holding raw; otherwise the filter matches by substring against
the lowercase text. -/
theorem setPattern_mode_invariant (f : KFileItemModelFilter) (raw : List Char) :
    (setPattern f raw).m_pattern = raw
    ∧ (setPattern f raw).m_lowerCasePattern = lowerStr raw
    ∧ (setPattern f raw).m_useRegExp = (hasWildcardMeta raw && globValid raw)
    ∧ (hasWildcardMeta raw = true → (setPattern f raw).m_regExp = some raw)
    ∧ ((setPattern f raw).m_useRegExp = false →
        ∀ item : KFileItem, matchesPattern (setPattern f raw) item =
          containsStr (lowerStr item.text) (lowerStr raw)) := by
  by_cases hmeta : hasWildcardMeta raw
  · refine ⟨by simp [setPattern, hmeta], by simp [setPattern, hmeta],
      by simp [setPattern, hmeta], fun _ => by simp [setPattern, hmeta], fun hmode item => ?_⟩
    simp only [setPattern, hmeta, if_true] at hmode ⊢
    simp [matchesPattern, hmode]
  · refine ⟨by simp [setPattern, hmeta], by simp [setPattern, hmeta],
      by simp [setPattern, hmeta], fun hc => absurd hc (by simp [hmeta]), fun _ item => ?_⟩
    simp [setPattern, hmeta, matchesPattern]

open KFileItemModelFilter in
theorem setPattern_mode_invariant_witness :
    (setPattern init (str "[")).m_useRegExp = false
    ∧ matchesPattern (setPattern init (str "[")) { text := str "x[y", isHidden := false, mimetype := [] }
        = containsStr (lowerStr (str "x[y")) (lowerStr (str "[")) :=
  ⟨by decide,
   (setPattern_mode_invariant init (str "[")).2.2.2.2 (by decide)
     { text := str "x[y", isHidden := false, mimetype := [] }⟩

open KFileItemModelFilter in
/-- C7: hasSetFilters is true exactly when the pattern or one of the mime
sets is non-empty or hidden files are not shown; the whitelist flag and
pattern list never change it; it is true right after setHiddenFilesShown
false on a fresh filter and false in the freshly constructed state. -/
theorem hasSetFilters_spec (f : KFileItemModelFilter) (e : Bool) (l : List (List Char)) :
    (hasSetFilters f = true ↔
      f.m_pattern ≠ [] ∨ f.m_mimeTypes ≠ [] ∨ f.m_excludeMimeTypes ≠ [] ∨
        f.m_hiddenFilesShown = false)
    ∧ hasSetFilters (setHiddenFilesWhitelistEnabled f e) = hasSetFilters f
    ∧ hasSetFilters (setHiddenFilesWhitelist f l) = hasSetFilters f
    ∧ hasSetFilters (setHiddenFilesShown init false) = true
    ∧ hasSetFilters init = false := by
  refine ⟨?_, rfl, rfl, rfl, rfl⟩
  cases hp : f.m_pattern <;> cases hm : f.m_mimeTypes <;> cases he : f.m_excludeMimeTypes <;>
    cases hs : f.m_hiddenFilesShown <;> simp [hasSetFilters, hp, hm, he, hs]

open KFileItemModelFilter in
/-- C8: setHiddenFilesWhitelist is idempotent; the stored list is the given
list and the compiled matcher list is a pure function of it, independent of
the prior state. -/
theorem setHiddenFilesWhitelist_idempotent (f g : KFileItemModelFilter)
    (patterns : List (List Char)) :
    setHiddenFilesWhitelist (setHiddenFilesWhitelist f patterns) patterns
      = setHiddenFilesWhitelist f patterns
    ∧ (setHiddenFilesWhitelist f patterns).m_hiddenWhitelist = patterns
    ∧ (setHiddenFilesWhitelist f patterns).m_hiddenWhitelistRegExps
        = (setHiddenFilesWhitelist g patterns).m_hiddenWhitelistRegExps :=
  ⟨rfl, rfl, rfl⟩

theorem ne_nil_isEmpty {α : Type} {l : List α} (h : l ≠ []) : l.isEmpty = false := by
  cases l with
  | nil => exact absurd rfl h
  | cons a l => rfl

open KFileItemModelFilter in
/-- C1: for a hidden item with hidden files not shown, matches returns false
immediately unless the whitelist is enabled and matches the display name, in
which case (and for every non-hidden item, and whenever hidden files are
shown) evaluation continues to the pattern/mime step. -/
theorem hidden_gate_correct (f : KFileItemModelFilter) (item : KFileItem) :
    (item.isHidden = true → f.m_hiddenFilesShown = false →
      (((f.m_hiddenWhitelistEnabled && matchesHiddenWhitelist f item) = false →
          matchesItem f item = false)
        ∧ ((f.m_hiddenWhitelistEnabled && matchesHiddenWhitelist f item) = true →
          matchesItem f item = patternMimeStep f item)))
    ∧ (item.isHidden = false → matchesItem f item = patternMimeStep f item)
    ∧ (f.m_hiddenFilesShown = true → matchesItem f item = patternMimeStep f item) := by
  refine ⟨fun hH hS => ⟨fun hwl => ?_, fun hwl => ?_⟩, fun hH => ?_, fun hS => ?_⟩
  · simp [matchesItem, hH, hS, hwl]
  · simp [matchesItem, patternMimeStep, hH, hS, hwl]
  · simp [matchesItem, patternMimeStep, hH]
  · simp [matchesItem, patternMimeStep, hS]

open KFileItemModelFilter in
theorem hidden_gate_correct_witness :
    matchesItem (setHiddenFilesShown init false)
      { text := str ".config", isHidden := true, mimetype := [] } = false :=
  ((hidden_gate_correct (setHiddenFilesShown init false)
    { text := str ".config", isHidden := true, mimetype := [] }).1 rfl rfl).1 (by decide)

open KFileItemModelFilter in
/-- C2: past the hidden-file gate, matches is the announced combination of
the pattern and mime filters, and in particular is true for every item when
no filter is set and hidden files are shown. -/
theorem filter_combination_correct (f : KFileItemModelFilter) (item : KFileItem) :
    (f.m_hiddenFilesShown = true ∨ item.isHidden = false ∨
        (f.m_hiddenWhitelistEnabled && matchesHiddenWhitelist f item) = true →
      ((f.m_pattern = [] ∧ f.m_mimeTypes = [] ∧ f.m_excludeMimeTypes = [] →
          matchesItem f item = true)
        ∧ (f.m_pattern ≠ [] ∧ (f.m_mimeTypes ≠ [] ∨ f.m_excludeMimeTypes ≠ []) →
          matchesItem f item = (matchesPattern f item && matchesType f item))
        ∧ (f.m_pattern ≠ [] ∧ f.m_mimeTypes = [] ∧ f.m_excludeMimeTypes = [] →
          matchesItem f item = matchesPattern f item)
        ∧ (f.m_pattern = [] ∧ (f.m_mimeTypes ≠ [] ∨ f.m_excludeMimeTypes ≠ []) →
          matchesItem f item = matchesType f item)))
    ∧ (f.m_pattern = [] → f.m_mimeTypes = [] → f.m_excludeMimeTypes = [] →
        f.m_hiddenFilesShown = true → matchesItem f item = true) := by
  have hgate : f.m_hiddenFilesShown = true ∨ item.isHidden = false ∨
      (f.m_hiddenWhitelistEnabled && matchesHiddenWhitelist f item) = true →
      matchesItem f item = patternMimeStep f item := by
    intro hg
    rcases hg with h | h | h <;> simp [matchesItem, patternMimeStep, h]
  constructor
  · intro hg
    rw [hgate hg]
    refine ⟨fun h => ?_, fun h => ?_, fun h => ?_, fun h => ?_⟩
    · simp [patternMimeStep, h.1, h.2.1, h.2.2]
    · rcases h.2 with h2 | h2 <;>
        simp [patternMimeStep, ne_nil_isEmpty h.1, ne_nil_isEmpty h2]
    · simp [patternMimeStep, ne_nil_isEmpty h.1, h.2.1, h.2.2]
    · rcases h.2 with h2 | h2 <;> simp [patternMimeStep, h.1, ne_nil_isEmpty h2]
  · intro h1 h2 h3 h4
    simp [matchesItem, h1, h2, h3, h4]

open KFileItemModelFilter in
theorem filter_combination_correct_witness :
    matchesItem init { text := str "a", isHidden := true, mimetype := str "x/y" } = true :=
  (filter_combination_correct init
    { text := str "a", isHidden := true, mimetype := str "x/y" }).2 rfl rfl rfl rfl

open KFileItemModelFilter in
/-- C4: matchesPattern uses the compiled case-insensitive wildcard matcher on
the display name in wildcard mode, and case-insensitive substring containment
otherwise; the concrete conjuncts check the spec's examples. -/
theorem matchesPattern_spec :
    (∀ (f : KFileItemModelFilter) (item : KFileItem) (pat : List Char),
      f.m_useRegExp = true → f.m_regExp = some pat →
      matchesPattern f item = globMatch pat item.text)
    ∧ (∀ (f : KFileItemModelFilter) (item : KFileItem),
      f.m_useRegExp = false → f.m_lowerCasePattern = lowerStr f.m_pattern →
      matchesPattern f item = containsStr (lowerStr item.text) (lowerStr f.m_pattern))
    ∧ matchesPattern (setPattern init (str "foo"))
        { text := str "Foobar.txt", isHidden := false, mimetype := [] } = true
    ∧ matchesPattern (setPattern init (str "*.txt"))
        { text := str "notes.txt", isHidden := false, mimetype := [] } = true
    ∧ matchesPattern (setPattern init (str "*.txt"))
        { text := str "notes.pdf", isHidden := false, mimetype := [] } = false := by
  refine ⟨fun f item pat h1 h2 => ?_, fun f item h1 h2 => ?_, by decide, by decide, by decide⟩
  · simp [matchesPattern, h1, h2]
  · simp [matchesPattern, h1, h2]

open KFileItemModelFilter in
theorem matchesPattern_spec_witness :
    matchesPattern { init with m_useRegExp := true, m_regExp := some (str "*") }
      { text := str "a", isHidden := false, mimetype := [] }
      = globMatch (str "*") (str "a") :=
  matchesPattern_spec.1 { init with m_useRegExp := true, m_regExp := some (str "*") }
    { text := str "a", isHidden := false, mimetype := [] } (str "*") rfl rfl

open KFileItemModelFilter in
/-- C6: the compiled whitelist is the ordered per-entry compilation of the
raw list: entries are trimmed, empty ones skipped, wildcard entries compiled
only when valid (an invalid one is dropped without affecting the others) and
plain entries always compiled to the exact matcher. -/
theorem whitelist_compilation_spec (f : KFileItemModelFilter)
    (patterns : List (List Char)) :
    ((setHiddenFilesWhitelist f patterns).m_hiddenWhitelistRegExps
        = patterns.filterMap compileWhitelistEntry)
    ∧ (∀ p : List Char, trimmed p = [] → compileWhitelistEntry p = none)
    ∧ (∀ p : List Char, trimmed p ≠ [] → hasWildcardMeta (trimmed p) = true →
        compileWhitelistEntry p =
          (if globValid (trimmed p) then some (WlRegExp.wild (trimmed p)) else none))
    ∧ (∀ p : List Char, trimmed p ≠ [] → hasWildcardMeta (trimmed p) = false →
        compileWhitelistEntry p = some (WlRegExp.exact (trimmed p)))
    ∧ (∀ (xs ys : List (List Char)) (bad : List Char), compileWhitelistEntry bad = none →
        (setHiddenFilesWhitelist f (xs ++ bad :: ys)).m_hiddenWhitelistRegExps
          = (setHiddenFilesWhitelist f (xs ++ ys)).m_hiddenWhitelistRegExps) := by
  have hmain : ∀ l : List (List Char),
      (setHiddenFilesWhitelist f l).m_hiddenWhitelistRegExps
        = l.filterMap compileWhitelistEntry := fun l => by
    simp [setHiddenFilesWhitelist, updateHiddenWhitelistRegExps, wlFold_eq]
  refine ⟨hmain patterns, fun p hp => ?_, fun p hp hm => ?_, fun p hp hm => ?_,
    fun xs ys bad hbad => ?_⟩
  · simp [compileWhitelistEntry, hp]
  · simp [compileWhitelistEntry, ne_nil_isEmpty hp, hm]
  · simp [compileWhitelistEntry, ne_nil_isEmpty hp, hm]
  · rw [hmain, hmain]
    simp [List.filterMap_append, List.filterMap_cons, hbad]

open KFileItemModelFilter in
theorem whitelist_compilation_spec_witness :
    (setHiddenFilesWhitelist init
        ([str ".git"] ++ str "[" :: [str "*.bak"])).m_hiddenWhitelistRegExps
      = (setHiddenFilesWhitelist init ([str ".git"] ++ [str "*.bak"])).m_hiddenWhitelistRegExps :=
  (whitelist_compilation_spec init []).2.2.2.2 [str ".git"] [str "*.bak"] (str "[")
    (by decide)

open KFileItemModelFilter in
/-- C9: two filter states that agree on everything except the whitelist flag
and whitelist pattern list decide every non-hidden item identically, and
likewise every item when hidden files are shown; on a hidden item with
hidden files not shown, the whitelist-free state already answers false, so
the whitelist can only ever turn that answer into true. -/
theorem whitelist_noninterference (f1 f2 : KFileItemModelFilter) (item : KFileItem)
    (hu : f1.m_useRegExp = f2.m_useRegExp)
    (hr : f1.m_regExp = f2.m_regExp)
    (hl : f1.m_lowerCasePattern = f2.m_lowerCasePattern)
    (hp : f1.m_pattern = f2.m_pattern)
    (hm : f1.m_mimeTypes = f2.m_mimeTypes)
    (he : f1.m_excludeMimeTypes = f2.m_excludeMimeTypes)
    (hs : f1.m_hiddenFilesShown = f2.m_hiddenFilesShown) :
    (item.isHidden = false → matchesItem f1 item = matchesItem f2 item)
    ∧ (f1.m_hiddenFilesShown = true → matchesItem f1 item = matchesItem f2 item)
    ∧ (item.isHidden = true → f1.m_hiddenFilesShown = false →
        f1.m_hiddenWhitelistEnabled = false → matchesItem f1 item = false) := by
  have hPat : matchesPattern f1 item = matchesPattern f2 item := by
    simp only [matchesPattern, hu, hr, hl]
  have hTy : matchesType f1 item = matchesType f2 item := by
    simp only [matchesType, hm, he]
  have hStep : patternMimeStep f1 item = patternMimeStep f2 item := by
    simp only [patternMimeStep, hp, hm, he, hPat, hTy]
  refine ⟨fun hH => ?_, fun hS => ?_, fun hH hS hE => ?_⟩
  · calc matchesItem f1 item = patternMimeStep f1 item := by
          simp [matchesItem, patternMimeStep, hH]
      _ = patternMimeStep f2 item := hStep
      _ = matchesItem f2 item := by simp [matchesItem, patternMimeStep, hH]
  · have hS2 : f2.m_hiddenFilesShown = true := hs.symm.trans hS
    calc matchesItem f1 item = patternMimeStep f1 item := by
          simp [matchesItem, patternMimeStep, hS]
      _ = patternMimeStep f2 item := hStep
      _ = matchesItem f2 item := by simp [matchesItem, patternMimeStep, hS2]
  · simp [matchesItem, hH, hS, hE]

open KFileItemModelFilter in
theorem whitelist_noninterference_witness :
    matchesItem init { text := str "a", isHidden := false, mimetype := [] } =
      matchesItem (setHiddenFilesWhitelistEnabled init true)
        { text := str "a", isHidden := false, mimetype := [] } :=
  (whitelist_noninterference init (setHiddenFilesWhitelistEnabled init true)
    { text := str "a", isHidden := false, mimetype := [] }
    rfl rfl rfl rfl rfl rfl rfl).1 rfl

open KFileItemModelFilter in
/-- C10: every compiled wildcard matcher, for the main pattern and for
wildcard whitelist entries alike, is anchored: it accepts exactly the
strings whose entirety matches the glob per the declarative whole-string
semantics GMatch; concretely, a name whose proper substring matches the glob
is rejected while the full match is accepted. -/
theorem wildcard_anchored :
    (∀ (f0 : KFileItemModelFilter) (raw : List Char) (toks : List GlobTok)
        (item : KFileItem),
      hasWildcardMeta raw = true → globParse raw = some toks →
      (matchesPattern (setPattern f0 raw) item = true ↔ GMatch toks item.text))
    ∧ (∀ (pat : List Char) (toks : List GlobTok) (name : List Char),
      globParse pat = some toks →
      (WlRegExp.hasMatch (WlRegExp.wild pat) name = true ↔ GMatch toks name))
    ∧ matchesPattern (setPattern init (str "*.txt"))
        { text := str "file.txt.bak", isHidden := false, mimetype := [] } = false
    ∧ matchesPattern (setPattern init (str "*.txt"))
        { text := str "file.txt", isHidden := false, mimetype := [] } = true := by
  refine ⟨fun f0 raw toks item hmeta hparse => ?_, fun pat toks name hparse => ?_,
    by decide, by decide⟩
  · have hvalid : globValid raw = true := by simp [globValid, hparse]
    simp [setPattern, hmeta, matchesPattern, hvalid, globMatch, hparse, globMatchToks_iff]
  · simp [WlRegExp.hasMatch, globMatch, hparse, globMatchToks_iff]

open KFileItemModelFilter in
theorem wildcard_anchored_witness : GMatch [GlobTok.star] (str "abc") :=
  (wildcard_anchored.1 init (str "*") [GlobTok.star]
    { text := str "abc", isHidden := false, mimetype := [] }
    (by decide) (by decide)).mp (by decide)

end Dolphin
